import Mathlib

/-
Shallow embedding of the routing and middleware core of the
Juhlinus/adonis-framework TypeScript port.

Sources embedded here:
  - src/src/Route/helpers.ts   (RouterHelper: construct, makeRoutePattern,
    returnMatchingRouteToUrl, returnRouteArguments, compileRouteToUrl)
  - src/src/Route/index.ts     (Route: route, resolve, url, remove;
    Resource: _makePattern, _registerRoute, _buildRoutes, _transformKeys, as;
    Domains: match)
  - src/unnamed/part_002       (Middleware: register, global, named,
    fetchParams, formatNamedMiddleware, compose, _composeFunction,
    _composeObject)

Strings are modelled as Lean String, JS arrays as List, JS objects used as
maps as association lists, and the compiled path-to-regexp pattern as the
list of slash-separated segments it was compiled from, with test, exec and
keys as functions of that data.  Mutation of the shared route array is
modelled by explicit state passing: each operation that mutates the array
in the source returns the new array alongside its result.
-/

namespace Adonis

/-- Model of the string split used by the JS code: String.prototype.split
with a single-character separator, operating on the character list.
An empty input yields one empty field, exactly as in JS. -/
def splitChar (sep : Char) : List Char → List (List Char)
  | [] => [[]]
  | c :: cs =>
    if c == sep then [] :: splitChar sep cs
    else
      match splitChar sep cs with
      | [] => [[c]]
      | r :: rs => (c :: r) :: rs

/-- String-level wrapper for splitChar. -/
def jsSplit (s : String) (sep : Char) : List String :=
  (splitChar sep s.toList).map (fun l => String.mk l)

/-- One segment of a compiled route pattern: a literal piece of path or a
named parameter (written with a leading colon in the template). -/
inductive Seg where
  | lit (s : String)
  | param (name : String)
deriving DecidableEq

/-- Compiled matcher, the model of the pathToRegexp result used in
helpers.ts: it is determined by the slash-separated segments of the
template it was compiled from. -/
structure Pattern where
  segs : List Seg
deriving DecidableEq

/-- Parse a path template into segments: fields are split on the slash and
a field starting with a colon is a named parameter. -/
def parseTemplate (route : String) : List Seg :=
  (splitChar '/' route.toList).map (fun seg =>
    match seg with
    | ':' :: rest => Seg.param (String.mk rest)
    | other => Seg.lit (String.mk other))

/-- RouterHelper.makeRoutePattern: compile a route into a pattern. -/
def makeRoutePattern (route : String) : Pattern :=
  { segs := parseTemplate route }

/-- Whether one pattern segment accepts one URL segment: a literal must be
equal, a parameter accepts any nonempty run without a slash. -/
def segTest : Seg → String → Bool
  | Seg.lit s, piece => s == piece
  | Seg.param _, piece => !piece.isEmpty

/-- Pattern test: the URL splits into the same number of segments and each
segment is accepted. -/
def Pattern.test (p : Pattern) (urlPath : String) : Bool :=
  let pieces := (splitChar '/' urlPath.toList).map (fun l => String.mk l)
  pieces.length == p.segs.length &&
    (p.segs.zip pieces).all (fun pr => segTest pr.1 pr.2)

/-- Ordered parameter names of a pattern, as they appear left to right. -/
def Pattern.keys (p : Pattern) : List String :=
  p.segs.filterMap (fun s =>
    match s with
    | Seg.param n => some n
    | Seg.lit _ => none)

/-- Pattern exec: on a successful test, the list of captured values of the
parameter segments in template order; otherwise none (the null of JS). -/
def Pattern.exec (p : Pattern) (urlPath : String) : Option (List String) :=
  if p.test urlPath then
    some ((p.segs.zip ((splitChar '/' urlPath.toList).map
        (fun l => String.mk l))).filterMap (fun pr =>
      match pr.1 with
      | Seg.param _ => some pr.2
      | Seg.lit _ => none))
  else none

/-- One registered route record, the object built by
RouterHelper.construct.  matchedVerb is absent until route resolution
writes it. -/
structure RouteRecord where
  route : String
  verb : List String
  handler : String
  pattern : Pattern
  middlewares : List String
  name : String
  group : Option String
  domain : Option String
  matchedVerb : Option String
deriving DecidableEq

/-- Model of String.prototype.startsWith on the character list (the
library version does not reduce inside the kernel). -/
def jsStartsWith (s pre : String) : Bool := pre.toList.isPrefixOf s.toList

/-- RouterHelper.construct: normalize the route to start with a slash,
compile its pattern, start with no middleware, no domain, and the route
itself as default name. -/
def construct (route : String) (verb : List String) (handler : String)
    (group : Option String) : RouteRecord :=
  let route := if jsStartsWith route "/" then route else "/" ++ route
  { route := route
    verb := verb
    handler := handler
    pattern := makeRoutePattern route
    middlewares := []
    name := route
    group := group
    domain := none
    matchedVerb := none }

/-- Route.as: rename the most recently registered route. -/
def routeAs (routes : List RouteRecord) (n : String) : List RouteRecord :=
  routes.dropLast ++ (routes.getLast?.map (fun r => { r with name := n })).toList

/-- The lodash findIndex used by Route.remove: index of the first record
with the given name, or minus one when there is none. -/
def jsFindIndex (routes : List RouteRecord) (name : String) : Int :=
  match routes.findIdx? (fun r => r.name == name) with
  | some i => (i : Int)
  | none => -1

/-- JS Array.prototype.splice with delete count one, restricted to the
removal effect: a negative start counts from the end of the array (clamped
at zero), a start past the end removes nothing. -/
def jsSpliceRemoveOne {α : Type} (l : List α) (start : Int) : List α :=
  let s : Nat := if start < 0 then ((l.length : Int) + start).toNat
                 else min start.toNat l.length
  l.take s ++ l.drop (s + 1)

/-- Route.remove: findIndex of the first record with the given name, then
splice one element at that index. -/
def remove (routes : List RouteRecord) (name : String) : List RouteRecord :=
  jsSpliceRemoveOne routes (jsFindIndex routes name)

/-- Concrete record on path /a used by counterexamples. -/
def cRouteA : RouteRecord := construct "/a" ["GET"] "h" none

/-- Concrete record on path /b used by counterexamples. -/
def cRouteB : RouteRecord := construct "/b" ["GET"] "h" none

theorem findIdx?_lt_length {α : Type} (p : α → Bool) :
    ∀ (l : List α) (i : Nat), l.findIdx? p = some i → i < l.length := by
  intro l
  induction l with
  | nil => intro i h; simp [List.findIdx?] at h
  | cons a l ih =>
    intro i h
    rw [List.findIdx?_cons] at h
    by_cases hp : p a
    · simp [hp] at h
      subst h
      simp
    · simp [hp] at h
      obtain ⟨j, hj, rfl⟩ := h
      have := ih j hj
      simp
      omega

/-- C5 counterexample: removing a name that no record carries is not a
no-op; with records on /a and /b, removing the absent name zzz deletes the
record on /b. -/
theorem remove_missing_name_changes_registry :
    remove [cRouteA, cRouteB] "zzz" ≠ [cRouteA, cRouteB] := by
  decide

/-- C5 (amended): remove deletes the first record carrying the given name
when one exists; when no record has that name, findIndex yields minus one
and splice removes the last record of the registry (a no-op only when the
registry is empty).  No error is raised in either case. -/
theorem remove_spec (routes : List RouteRecord) (name : String) :
    (∀ i, routes.findIdx? (fun r => r.name == name) = some i →
      remove routes name = routes.take i ++ routes.drop (i + 1))
    ∧ (routes.findIdx? (fun r => r.name == name) = none →
      remove routes name = routes.dropLast) := by
  constructor
  · intro i hi
    have hlt : i < routes.length := findIdx?_lt_length _ routes i hi
    simp only [remove, jsFindIndex, hi, jsSpliceRemoveOne]
    have h0 : ¬ ((i : Int) < 0) := by omega
    simp [h0, Int.toNat_ofNat, Nat.min_eq_left (Nat.le_of_lt hlt)]
  · intro hn
    simp only [remove, jsFindIndex, hn, jsSpliceRemoveOne]
    have h0 : (-1 : Int) < 0 := by omega
    simp only [h0, if_true]
    have hs : ((routes.length : Int) + -1).toNat = routes.length - 1 := by
      omega
    rw [hs]
    cases routes with
    | nil => simp
    | cons a l =>
      have hlen : (a :: l).length - 1 + 1 = (a :: l).length := by
        simp
      rw [hlen, List.drop_length, List.append_nil, List.dropLast_eq_take]

/-- C5 witness: applying remove_spec at the concrete registry of the two
records on /a and /b and the absent name zzz. -/
theorem remove_spec_witness :
    remove [cRouteA, cRouteB] "zzz" = [cRouteA] := by
  have h := (remove_spec [cRouteA, cRouteB] "zzz").2 (by decide)
  simpa using h

/-- The in-scan pattern reassignment of returnMatchingRouteToUrl: when the
record carries a domain, its pattern field is overwritten with the pattern
compiled from the domain followed by the route. -/
def recompileDomain (r : RouteRecord) : RouteRecord :=
  match r.domain with
  | some d => { r with pattern := makeRoutePattern (d ++ r.route) }
  | none => r

/-- The match predicate of returnMatchingRouteToUrl: the pattern tests
true against the URL and the verb is included in the record's verb list. -/
def routeMatchesB (urlPath verb : String) (r : RouteRecord) : Bool :=
  r.pattern.test urlPath && r.verb.contains verb

/-- RouterHelper.returnMatchingRouteToUrl, as a state transformer: the
lodash filter walks every record, overwriting the pattern of each record
that carries a domain; the first record whose (possibly recompiled)
pattern tests true and whose verbs include the requested verb gets its
matchedVerb field set and is returned.  The first component is the route
array after these in-place writes, the second the matched record (none
models the empty-object result). -/
def returnMatchingRouteToUrl (routes : List RouteRecord)
    (urlPath verb : String) : List RouteRecord × Option RouteRecord :=
  match routes with
  | [] => ([], none)
  | r :: rs =>
    let r2 := recompileDomain r
    if routeMatchesB urlPath verb r2 then
      let m := { r2 with matchedVerb := some verb }
      (m :: rs.map recompileDomain, some m)
    else
      let rest := returnMatchingRouteToUrl rs urlPath verb
      (r2 :: rest.1, rest.2)

/-- The value returned by route resolution: a shallow copy of the matched
record together with the extracted params. -/
structure ResolvedRoute extends RouteRecord where
  params : List (String × String)
deriving DecidableEq

/-- RouterHelper.returnRouteArguments: clone the matched record and attach
params, pairing each pattern key with the capture at the same position. -/
def returnRouteArguments (r : RouteRecord) (urlPath : String) : ResolvedRoute :=
  { toRouteRecord := r
    params := r.pattern.keys.zip ((r.pattern.exec urlPath).getD []) }

/-- The router state seen by resolve: the shared route array plus the
registered domain patterns of the Domains singleton. -/
structure RouterState where
  routes : List RouteRecord
  registeredDomains : List Pattern
deriving DecidableEq

/-- Domains.match: whether any registered domain pattern tests true
against the host. -/
def domainsMatch (ds : List Pattern) (host : String) : Bool :=
  ds.any (fun d => d.test host)

/-- The URL actually matched by Route.resolve: the host is prepended to
the path exactly when the domain matcher accepts the host. -/
def effPath (st : RouterState) (urlPath host : String) : String :=
  if domainsMatch st.registeredDomains host then host ++ urlPath else urlPath

/-- Route.resolve: qualify the path with the host when a domain matches,
scan the registry, and return the post-scan registry together with the
argument-carrying copy of the match (none when nothing matched). -/
def resolve (st : RouterState) (urlPath verb host : String) :
    RouterState × Option ResolvedRoute :=
  let url2 := effPath st urlPath host
  let scanned := returnMatchingRouteToUrl st.routes url2 verb
  ({ st with routes := scanned.1 },
    scanned.2.map (fun m => returnRouteArguments m url2))

theorem returnMatching_snd (urlPath verb : String) :
    ∀ routes : List RouteRecord,
      (returnMatchingRouteToUrl routes urlPath verb).2 =
        ((routes.map recompileDomain).find? (routeMatchesB urlPath verb)).map
          (fun r => { r with matchedVerb := some verb }) := by
  intro routes
  induction routes with
  | nil => rfl
  | cons r rs ih =>
    simp only [returnMatchingRouteToUrl, List.map_cons, List.find?_cons]
    by_cases hm : routeMatchesB urlPath verb (recompileDomain r)
    · simp [hm]
    · simp [hm, ih]

/-- C1: resolve returns, wrapped by returnRouteArguments against the
host-qualified path, the first record in registration order whose
(domain-recompiled when a domain is present) pattern tests true and whose
verb list contains the requested verb; the result carries the requested
verb as matchedVerb and the params pair the pattern keys positionally with
the captures; when no record matches the result is none, never an error. -/
theorem resolve_first_match (st : RouterState) (urlPath verb host : String) :
    (resolve st urlPath verb host).2 =
      ((st.routes.map recompileDomain).find?
          (routeMatchesB (effPath st urlPath host) verb)).map
        (fun r => returnRouteArguments { r with matchedVerb := some verb }
          (effPath st urlPath host))
    ∧ Option.all (fun res => res.matchedVerb == some verb)
        (resolve st urlPath verb host).2 = true
    ∧ Option.all (fun res => res.params ==
          res.pattern.keys.zip
            ((res.pattern.exec (effPath st urlPath host)).getD []))
        (resolve st urlPath verb host).2 = true := by
  have h1 : (resolve st urlPath verb host).2 =
      ((st.routes.map recompileDomain).find?
          (routeMatchesB (effPath st urlPath host) verb)).map
        (fun r => returnRouteArguments { r with matchedVerb := some verb }
          (effPath st urlPath host)) := by
    simp only [resolve, returnMatching_snd, Option.map_map]
    rfl
  refine ⟨h1, ?_, ?_⟩ <;>
    · rw [h1]
      cases (st.routes.map recompileDomain).find?
          (routeMatchesB (effPath st urlPath host) verb) with
      | none => rfl
      | some r => simp [returnRouteArguments]

/-- Field-preservation relation used by the frame theorem: the post-scan
record keeps every field of the pre-scan record except that the pattern is
the domain-recompiled one when a domain is present, and matchedVerb is
either untouched or set to the requested verb. -/
def frameRel (verb : String) (r r2 : RouteRecord) : Prop :=
  r2.route = r.route ∧ r2.verb = r.verb ∧ r2.handler = r.handler ∧
  r2.middlewares = r.middlewares ∧ r2.name = r.name ∧ r2.group = r.group ∧
  r2.domain = r.domain ∧
  r2.pattern = (match r.domain with
    | some d => makeRoutePattern (d ++ r.route)
    | none => r.pattern) ∧
  (r2.matchedVerb = r.matchedVerb ∨ r2.matchedVerb = some verb)

theorem frameRel_recompile (verb : String) (r : RouteRecord) :
    frameRel verb r (recompileDomain r) := by
  cases h : r.domain <;> simp [frameRel, recompileDomain, h]

theorem frameRel_matched (verb : String) (r : RouteRecord) :
    frameRel verb r { recompileDomain r with matchedVerb := some verb } := by
  cases h : r.domain <;> simp [frameRel, recompileDomain, h]

theorem forall2_map_recompile (verb : String) :
    ∀ rs : List RouteRecord,
      List.Forall₂ (frameRel verb) rs (rs.map recompileDomain) := by
  intro rs
  induction rs with
  | nil => exact List.Forall₂.nil
  | cons r rs ih => exact List.Forall₂.cons (frameRel_recompile verb r) ih

theorem scan_fst_frame (urlPath verb : String) :
    ∀ routes : List RouteRecord,
      List.Forall₂ (frameRel verb) routes
        (returnMatchingRouteToUrl routes urlPath verb).1 := by
  intro routes
  induction routes with
  | nil => exact List.Forall₂.nil
  | cons r rs ih =>
    simp only [returnMatchingRouteToUrl]
    by_cases hm : routeMatchesB urlPath verb (recompileDomain r)
    · simp only [hm, if_true]
      exact List.Forall₂.cons (frameRel_matched verb r)
        (forall2_map_recompile verb rs)
    · simp only [hm, if_false]
      exact List.Forall₂.cons (frameRel_recompile verb r) ih

/-- C4 (amended): resolution never touches route template, verb list,
handler, middleware list, name, group or domain of any shared record, the
registered domains are untouched, and params live only on the returned
copy; but it does overwrite the stored pattern of every record carrying a
domain with the pattern recompiled from domain plus route, and it sets
matchedVerb on the matched shared record. -/
theorem resolve_frame_effect (st : RouterState) (urlPath verb host : String) :
    List.Forall₂ (frameRel verb) st.routes
      ((resolve st urlPath verb host).1).routes
    ∧ ((resolve st urlPath verb host).1).registeredDomains =
        st.registeredDomains := by
  exact ⟨scan_fst_frame (effPath st urlPath host) verb st.routes, rfl⟩

/-- Concrete one-record registry used by the C4 counterexample. -/
def stA : RouterState := { routes := [cRouteA], registeredDomains := [] }

/-- C4 counterexample: resolving a matching request mutates the shared
registry record (its matchedVerb field is written), so the claim that no
field of any record changes is false. -/
theorem resolve_mutates_shared_record :
    ((resolve stA "/a" "GET" "localhost").1).routes ≠ stA.routes := by
  decide

/-- Lookup in a JS object used as a map, modelled as an association list:
the value of the first pair with the given key. -/
def lookupTable {β : Type} (t : List (String × β)) (k : String) : Option β :=
  (t.find? (fun p => p.1 == k)).map (fun p => p.2)

/-- RouterHelper.compileRouteToUrl, the model of pathToRegexp.compile:
every literal segment is kept, every parameter segment is replaced by the
value supplied for its name; a missing, empty or slash-containing value
makes the compiler throw, modelled as none. -/
def compileRouteToUrl (route : String)
    (values : List (String × String)) : Option String :=
  match (parseTemplate route).mapM (fun s =>
    match s with
    | Seg.lit l => some l
    | Seg.param n =>
      match lookupTable values n with
      | some v =>
        if v.isEmpty || v.toList.contains '/' then none else some v
      | none => none) with
  | some parts => some (String.intercalate "/" parts)
  | none => none

/-- The template compiled by Route.url for a named route: the domain
prepended to the route when a domain is set. -/
def domainRoute (r : RouteRecord) : String :=
  match r.domain with
  | some d => d ++ r.route
  | none => r.route

/-- Route.url: the first route whose name equals the argument (a lodash
filter followed by taking the head) is compiled from its own template;
when no route carries that name the argument itself is compiled as a raw
template. -/
def url (st : RouterState) (pattern : String)
    (params : List (String × String)) : Option String :=
  match (st.routes.filter (fun r => r.name == pattern)).head? with
  | some namedRoute => compileRouteToUrl (domainRoute namedRoute) params
  | none => compileRouteToUrl pattern params

/-- Registry with the single route /user/:id for GET and HEAD named
user.show, used by the round-trip part of C8. -/
def userShowState : RouterState :=
  { routes := routeAs
      [construct "/user/:id" ["GET", "HEAD"] "UserController.show" none]
      "user.show"
    registeredDomains := [] }

/-- C8: url resolves its argument as a route name first, compiling the
first record of that name (domain-qualified when a domain is set), and
falls back to compiling the argument as a raw template when no record has
that name; and the concrete round trip holds: url of user.show with id 5
is /user/5, and resolving /user/5 with GET returns the user.show route
with params binding id to the string 5. -/
theorem url_lookup_roundtrip :
    (∀ (st : RouterState) (pattern : String)
        (params : List (String × String)),
      url st pattern params =
        match st.routes.find? (fun r => r.name == pattern) with
        | some r => compileRouteToUrl (domainRoute r) params
        | none => compileRouteToUrl pattern params)
    ∧ url userShowState "user.show" [("id", "5")] = some "/user/5"
    ∧ ((resolve userShowState "/user/5" "GET" "example.com").2).map
        (fun res => (res.name, res.route, res.params)) =
      some ("user.show", "/user/:id", [("id", "5")]) := by
  refine ⟨?_, by decide, by decide⟩
  intro st pattern params
  simp only [url, List.filter_head?]

/-- The middleware module state: the global middleware list and the named
middleware table. -/
structure MwState where
  globalMiddleware : List String
  namedMiddleware : List (String × String)
deriving DecidableEq

/-- Assignment into a JS object used as a map: an existing key keeps its
position and gets the new value, a new key is appended. -/
def setAssoc {β : Type} (t : List (String × β)) (k : String) (v : β) :
    List (String × β) :=
  if t.any (fun p => p.1 == k) then
    t.map (fun p => if p.1 == k then (k, v) else p)
  else t ++ [(k, v)]

/-- Middleware.register: a falsy namespace argument (absent, or the empty
string) appends the key to the global list and leaves the named table
alone; a truthy namespace maps the key to it in the named table and leaves
the global list alone. -/
def register (st : MwState) (key : String) (ns : Option String) : MwState :=
  match ns with
  | none => { st with globalMiddleware := st.globalMiddleware ++ [key] }
  | some s =>
    if s.isEmpty then
      { st with globalMiddleware := st.globalMiddleware ++ [key] }
    else { st with namedMiddleware := setAssoc st.namedMiddleware key s }

/-- Middleware.named: register every pair of the mapping in order. -/
def named (st : MwState) (mapping : List (String × String)) : MwState :=
  mapping.foldl (fun acc kv => register acc kv.1 (some kv.2)) st

/-- The lodash uniq: keep the first occurrence of every element, in
order.  The accumulator holds the elements already seen. -/
def jsUniqAux (seen : List String) : List String → List String
  | [] => []
  | a :: l =>
    if seen.contains a then jsUniqAux seen l
    else a :: jsUniqAux (a :: seen) l

/-- Entry point of the uniq model. -/
def jsUniq (l : List String) : List String := jsUniqAux [] l

/-- Middleware.global: concatenate the uniq of the batch onto the current
global list. -/
def global (globalMiddleware arrayOfMiddleware : List String) :
    List String :=
  globalMiddleware ++ jsUniq arrayOfMiddleware

theorem mem_jsUniqAux (x : String) :
    ∀ (l seen : List String), x ∈ jsUniqAux seen l ↔ (x ∈ l ∧ x ∉ seen) := by
  intro l
  induction l with
  | nil => intro seen; simp [jsUniqAux]
  | cons a l ih =>
    intro seen
    by_cases ha : a ∈ seen
    · have hc : seen.contains a = true := List.elem_iff.mpr ha
      rw [jsUniqAux, if_pos hc, ih]
      simp only [List.mem_cons]
      constructor
      · rintro ⟨hx, hs⟩; exact ⟨Or.inr hx, hs⟩
      · rintro ⟨hx | hx, hs⟩
        · exact absurd (hx ▸ ha) hs
        · exact ⟨hx, hs⟩
    · have hc : ¬ (seen.contains a = true) := fun h => ha (List.elem_iff.mp h)
      rw [jsUniqAux, if_neg hc]
      simp only [List.mem_cons, ih]
      constructor
      · rintro (rfl | ⟨hx, hs⟩)
        · exact ⟨Or.inl rfl, ha⟩
        · simp only [List.mem_cons, not_or] at hs
          exact ⟨Or.inr hx, hs.2⟩
      · rintro ⟨rfl | hx, hs⟩
        · exact Or.inl rfl
        · by_cases hxa : x = a
          · exact Or.inl hxa
          · exact Or.inr ⟨hx, by simp [List.mem_cons, hxa, hs]⟩

theorem nodup_jsUniqAux :
    ∀ (l seen : List String), (jsUniqAux seen l).Nodup := by
  intro l
  induction l with
  | nil => intro seen; simp [jsUniqAux]
  | cons a l ih =>
    intro seen
    by_cases ha : a ∈ seen
    · have hc : seen.contains a = true := List.elem_iff.mpr ha
      rw [jsUniqAux, if_pos hc]
      exact ih seen
    · have hc : ¬ (seen.contains a = true) := fun h => ha (List.elem_iff.mp h)
      rw [jsUniqAux, if_neg hc, List.nodup_cons]
      refine ⟨fun hmem => ?_, ih (a :: seen)⟩
      have := (mem_jsUniqAux a l (a :: seen)).1 hmem
      simp at this

/-- C9 counterexample: batch registration of global middleware is not
idempotent; registering the one-element batch auth twice yields the list
with auth twice. -/
theorem global_not_idempotent :
    global (global [] ["auth"]) ["auth"] ≠ global [] ["auth"] := by
  decide

/-- C9 (amended): duplicates are collapsed only inside the registered
batch itself (the uniq of the batch keeps first occurrences, has no
duplicates, and has exactly the batch's members); the deduplicated batch
is then appended to the existing global list without removing entries
already present, so registering the same batch twice appends its uniq
twice. -/
theorem global_batch_spec (g b : List String) :
    global g b = g ++ jsUniq b
    ∧ (jsUniq b).Nodup
    ∧ (∀ x, x ∈ jsUniq b ↔ x ∈ b)
    ∧ global (global g b) b = (g ++ jsUniq b) ++ jsUniq b := by
  refine ⟨rfl, nodup_jsUniqAux b [], fun x => ?_, rfl⟩
  simpa using mem_jsUniqAux x b []

theorem find?_map_replace {β : Type} (k : String) (v : β) :
    ∀ t : List (String × β), t.any (fun p => p.1 == k) = true →
      (t.map (fun p => if p.1 == k then (k, v) else p)).find?
        (fun p => p.1 == k) = some (k, v) := by
  intro t
  induction t with
  | nil => intro h; simp at h
  | cons p t ih =>
    intro h
    by_cases hp : (p.1 == k) = true
    · simp only [List.map_cons, if_pos hp, List.find?_cons]
      simp
    · have h' : t.any (fun q => q.1 == k) = true := by
        simpa [List.any_cons, hp] using h
      have hpf : (p.1 == k) = false := by simpa using hp
      simp only [List.map_cons, hpf, Bool.false_eq_true, if_false,
        List.find?_cons]
      exact ih h'

theorem lookup_setAssoc {β : Type} (k : String) (v : β) :
    ∀ t : List (String × β), lookupTable (setAssoc t k v) k = some v := by
  intro t
  cases h : t.any (fun p => p.1 == k) with
  | true =>
    simp only [setAssoc, h, if_true, lookupTable, find?_map_replace k v t h,
      Option.map_some']
  | false =>
    have hnone : t.find? (fun p => p.1 == k) = none := by
      rw [List.find?_eq_none]
      intro p hp hpk
      exact (List.any_eq_false.mp h p hp) hpk
    simp only [setAssoc, h, Bool.false_eq_true, if_false, lookupTable,
      List.find?_append, hnone]
    simp

/-- C10: register with a falsy namespace appends the key to the global
middleware list and leaves the named table unchanged, with a truthy
namespace it writes the named table (the key then looks up to that
namespace) and leaves the global list unchanged; hence named applied to a
pair whose value is falsy registers the key as a global middleware. -/
theorem register_global_or_named (st : MwState) (key : String)
    (ns : Option String) :
    ((ns = none ∨ ns = some "") →
      register st key ns =
        { st with globalMiddleware := st.globalMiddleware ++ [key] })
    ∧ (∀ s, ns = some s → s.isEmpty = false →
      register st key ns =
        { st with namedMiddleware := setAssoc st.namedMiddleware key s })
    ∧ (∀ s : String, s.isEmpty = false →
      lookupTable (register st key (some s)).namedMiddleware key = some s)
    ∧ named st [(key, "")] =
        { st with globalMiddleware := st.globalMiddleware ++ [key] } := by
  refine ⟨?_, ?_, ?_, ?_⟩
  · rintro (rfl | rfl)
    · rfl
    · rfl
  · rintro s rfl hs
    simp [register, hs]
  · intro s hs
    simp [register, hs, lookup_setAssoc]
  · rfl

/-- C10 witness: applying register_global_or_named at a falsy and at a
truthy namespace over the empty middleware state. -/
theorem register_global_or_named_witness :
    register ⟨[], []⟩ "Cors" none = ⟨["Cors"], []⟩
    ∧ register ⟨[], []⟩ "auth" (some "App/Auth") =
        ⟨[], [("auth", "App/Auth")]⟩ := by
  constructor
  · exact (register_global_or_named ⟨[], []⟩ "Cors" none).1 (Or.inl rfl)
  · have h := (register_global_or_named ⟨[], []⟩ "auth"
      (some "App/Auth")).2.1 "App/Auth" rfl (by decide)
    rw [h]
    decide

/-- Middleware.fetchParams: a truthy params string is split on the comma,
a missing or empty one yields no parameters. -/
def fetchParams (params : Option String) : List String :=
  match params with
  | none => []
  | some s => if s.isEmpty then [] else jsSplit s ','

/-- The first token of a raw middleware key split on the colon, the base
key looked up in the named table. -/
def baseToken (key : String) : String := (jsSplit key ':').headD ""

/-- The second token of a raw middleware key split on the colon, the
params text handed to fetchParams (absent when the key has no colon). -/
def paramToken (key : String) : Option String := (jsSplit key ':').get? 1

/-- The loop of Middleware.formatNamedMiddleware (a lodash reduce whose
body can throw): split each key on the colon, look the base key up in the
named table, throw on a falsy namespace, otherwise store the fetched
params under the namespace. -/
def formatNamedMiddlewareAux (st : MwState)
    (structured : List (String × List String)) :
    List String → Except String (List (String × List String))
  | [] => Except.ok structured
  | key :: rest =>
    match lookupTable st.namedMiddleware (baseToken key) with
    | some ns =>
      if ns.isEmpty then Except.error (baseToken key)
      else formatNamedMiddlewareAux st
        (setAssoc structured ns (fetchParams (paramToken key))) rest
    | none => Except.error (baseToken key)

/-- Middleware.formatNamedMiddleware: run the reduce from the empty
object. -/
def formatNamedMiddleware (st : MwState) (keys : List String) :
    Except String (List (String × List String)) :=
  formatNamedMiddlewareAux st [] keys

/-- Whether the base key of a raw middleware key is registered in the
named table with a truthy namespace. -/
def registeredB (st : MwState) (key : String) : Bool :=
  match lookupTable st.namedMiddleware (baseToken key) with
  | some ns => !ns.isEmpty
  | none => false

/-- The namespace a registered raw key resolves to. -/
def nsOfKey (st : MwState) (key : String) : String :=
  (lookupTable st.namedMiddleware (baseToken key)).getD ""

/-- Whether an Except value is a success. -/
def isOkE {ε α : Type} : Except ε α → Bool
  | Except.ok _ => true
  | Except.error _ => false

theorem splitChar_not_mem (sep : Char) :
    ∀ l : List Char, l.contains sep = false → splitChar sep l = [l] := by
  intro l
  induction l with
  | nil => intro _; rfl
  | cons c cs ih =>
    intro h
    have hc : (c == sep) = false := by
      by_contra hcc
      simp only [Bool.not_eq_false, beq_iff_eq] at hcc
      subst hcc
      simp [List.contains_cons] at h
    have hcs : cs.contains sep = false := by
      simp only [List.contains_cons, Bool.or_eq_false_iff] at h
      exact h.2
    simp [splitChar, hc, ih hcs]

theorem splitChar_append (sep : Char) :
    ∀ (b r : List Char), b.contains sep = false →
      splitChar sep (b ++ sep :: r) = b :: splitChar sep r := by
  intro b
  induction b with
  | nil =>
    intro r _
    simp [splitChar]
  | cons c b ih =>
    intro r h
    have hc : (c == sep) = false := by
      by_contra hcc
      simp only [Bool.not_eq_false, beq_iff_eq] at hcc
      subst hcc
      simp [List.contains_cons] at h
    have hb : b.contains sep = false := by
      simp only [List.contains_cons, Bool.or_eq_false_iff] at h
      exact h.2
    simp [splitChar, hc, ih r hb]

theorem mk_toList (s : String) : String.mk s.toList = s := by
  cases s
  rfl

theorem fnmAux_isOk (st : MwState) :
    ∀ (keys : List String) (structured : List (String × List String)),
      isOkE (formatNamedMiddlewareAux st structured keys) =
        keys.all (registeredB st) := by
  intro keys
  induction keys with
  | nil => intro structured; rfl
  | cons key rest ih =>
    intro structured
    cases hl : lookupTable st.namedMiddleware (baseToken key) with
    | none => simp [formatNamedMiddlewareAux, registeredB, hl, isOkE]
    | some ns =>
      cases he : ns.isEmpty with
      | true => simp [formatNamedMiddlewareAux, registeredB, hl, he, isOkE]
      | false => simp [formatNamedMiddlewareAux, registeredB, hl, he, ih]

theorem fnmAux_ok (st : MwState) :
    ∀ (keys : List String) (structured : List (String × List String)),
      keys.all (registeredB st) = true →
      formatNamedMiddlewareAux st structured keys =
        Except.ok (keys.foldl (fun acc k =>
          setAssoc acc (nsOfKey st k) (fetchParams (paramToken k)))
          structured) := by
  intro keys
  induction keys with
  | nil => intro structured _; rfl
  | cons key rest ih =>
    intro structured hall
    simp only [List.all_cons, Bool.and_eq_true] at hall
    obtain ⟨hkey, hrest⟩ := hall
    cases hl : lookupTable st.namedMiddleware (baseToken key) with
    | none => simp [registeredB, hl] at hkey
    | some ns =>
      cases he : ns.isEmpty with
      | true => simp [registeredB, hl, he] at hkey
      | false =>
        simp only [formatNamedMiddlewareAux, hl, he, Bool.false_eq_true,
          if_false, List.foldl_cons]
        rw [ih _ hrest]
        simp [nsOfKey, hl]

theorem fnmAux_error_at (st : MwState) :
    ∀ (pre : List String) (structured : List (String × List String))
      (key : String) (post : List String),
      pre.all (registeredB st) = true → registeredB st key = false →
      formatNamedMiddlewareAux st structured (pre ++ key :: post) =
        Except.error (baseToken key) := by
  intro pre
  induction pre with
  | nil =>
    intro structured key post _ hkey
    cases hl : lookupTable st.namedMiddleware (baseToken key) with
    | none => simp [formatNamedMiddlewareAux, hl]
    | some ns =>
      cases he : ns.isEmpty with
      | true => simp [formatNamedMiddlewareAux, hl, he]
      | false => simp [registeredB, hl, he] at hkey
  | cons p pre ih =>
    intro structured key post hall hkey
    simp only [List.all_cons, Bool.and_eq_true] at hall
    obtain ⟨hp, hpre⟩ := hall
    cases hl : lookupTable st.namedMiddleware (baseToken p) with
    | none => simp [registeredB, hl] at hp
    | some ns =>
      cases he : ns.isEmpty with
      | true => simp [registeredB, hl, he] at hp
      | false =>
        simp only [List.cons_append, formatNamedMiddlewareAux, hl, he,
          Bool.false_eq_true, if_false]
        exact ih _ key post hpre hkey

/-- C7: formatNamedMiddleware succeeds exactly when every key's base
token (the text before the colon) is registered in the named table; the
first unregistered base key raises the fatal configuration error naming
it, whatever the table; on success the result maps each key's namespace
to its fetched params; and the params of a key are empty when the key has
no colon, and the comma-split of the text after the colon otherwise. -/
theorem formatNamedMiddleware_spec (st : MwState) (keys : List String) :
    isOkE (formatNamedMiddleware st keys) = keys.all (registeredB st)
    ∧ (∀ key pre post, keys = pre ++ key :: post →
        pre.all (registeredB st) = true → registeredB st key = false →
        formatNamedMiddleware st keys = Except.error (baseToken key))
    ∧ ((∀ k ∈ keys, registeredB st k = true) →
        formatNamedMiddleware st keys =
          Except.ok (keys.foldl (fun acc k =>
            setAssoc acc (nsOfKey st k) (fetchParams (paramToken k))) []))
    ∧ fetchParams none = []
    ∧ (∀ s : String, s.isEmpty = false → fetchParams (some s) = jsSplit s ',')
    ∧ (∀ key : String, key.toList.contains ':' = false →
        fetchParams (paramToken key) = [])
    ∧ (∀ base rest : String, base.toList.contains ':' = false →
        rest.toList.contains ':' = false → rest.isEmpty = false →
        fetchParams (paramToken (base ++ ":" ++ rest)) = jsSplit rest ',') := by
  refine ⟨fnmAux_isOk st keys [], ?_, ?_, rfl, ?_, ?_, ?_⟩
  · intro key pre post hk hpre hkey
    rw [formatNamedMiddleware, hk]
    exact fnmAux_error_at st pre [] key post hpre hkey
  · intro hall
    exact fnmAux_ok st keys [] (List.all_eq_true.mpr hall)
  · intro s hs
    simp [fetchParams, hs]
  · intro key hk
    have hsplit : splitChar ':' key.toList = [key.toList] :=
      splitChar_not_mem ':' key.toList hk
    simp only [paramToken, jsSplit, hsplit, List.map_cons, List.map_nil]
    rfl
  · intro base rest hb hr hre
    have hdata : (base ++ ":" ++ rest).toList =
        base.toList ++ ':' :: rest.toList := by
      show (base.toList ++ [':']) ++ rest.toList =
        base.toList ++ ':' :: rest.toList
      simp
    have hsplit : splitChar ':' (base ++ ":" ++ rest).toList =
        [base.toList, rest.toList] := by
      rw [hdata, splitChar_append ':' base.toList rest.toList hb,
        splitChar_not_mem ':' rest.toList hr]
    simp only [paramToken, jsSplit, hsplit, List.map_cons, List.map_nil]
    show fetchParams (some (String.mk rest.toList)) = jsSplit rest ','
    rw [mk_toList]
    simp [fetchParams, hre]

/-- C7 witness: applying formatNamedMiddleware_spec with a registered key
carrying two params, and with an unregistered key. -/
theorem formatNamedMiddleware_spec_witness :
    formatNamedMiddleware ⟨[], [("auth", "App/Auth")]⟩ ["auth:basic,jwt"] =
      Except.ok [("App/Auth", ["basic", "jwt"])]
    ∧ formatNamedMiddleware ⟨[], []⟩ ["auth:basic"] = Except.error "auth" := by
  constructor
  · have h := (formatNamedMiddleware_spec ⟨[], [("auth", "App/Auth")]⟩
      ["auth:basic,jwt"]).2.2.1 (by decide)
    rw [h]
    have hv : (["auth:basic,jwt"].foldl (fun acc k =>
        setAssoc acc (nsOfKey ⟨[], [("auth", "App/Auth")]⟩ k)
          (fetchParams (paramToken k))) []) =
        [("App/Auth", ["basic", "jwt"])] := by decide
    rw [hv]
  · have h := (formatNamedMiddleware_spec ⟨[], []⟩ ["auth:basic"]).2.1
      "auth:basic" [] [] rfl (by decide) (by decide)
    rw [h]
    have hv : baseToken "auth:basic" = "auth" := by decide
    rw [hv]

/-- One entry of the list handed to Middleware.compose: a plain callable,
or an object carrying a method and its bound parameters. -/
inductive MwEntry (ρ ε : Type) where
  | fn (f : ρ → ρ → List ε → List ε)
  | obj (method : ρ → ρ → List ε → List String → List ε)
        (parameters : List String)

/-- The uniform shape both entry kinds are normalized to before
composition. -/
structure MwNorm (ρ ε : Type) where
  method : ρ → ρ → List ε → List String → List ε
  parameters : List String

/-- Middleware._composeFunction: wrap a closure with no parameters. -/
def composeFunction {ρ ε : Type} (f : ρ → ρ → List ε → List ε) :
    MwNorm ρ ε :=
  { method := fun request response next _ => f request response next
    parameters := [] }

/-- Middleware._composeObject: keep the carried method and parameters. -/
def composeObject {ρ ε : Type}
    (method : ρ → ρ → List ε → List String → List ε)
    (parameters : List String) : MwNorm ρ ε :=
  { method := method, parameters := parameters }

/-- The normalization map applied inside compose. -/
def normalizeEntry {ρ ε : Type} : MwEntry ρ ε → MwNorm ρ ε
  | MwEntry.fn f => composeFunction f
  | MwEntry.obj m ps => composeObject m ps

/-- Middleware.compose: walk the normalized list from the right, each
middleware being applied to the request, the response, the chain built so
far as its next, and its own parameters appended after those; the first
entry of the list therefore ends up outermost.  The behaviour of a
middleware is modelled by the event trace its run produces. -/
def compose {ρ ε : Type} (middlewareList : List (MwEntry ρ ε))
    (request response : ρ) (next : List ε) : List ε :=
  (middlewareList.map normalizeEntry).foldr
    (fun m acc => m.method request response acc m.parameters) next

/-- A pass-through middleware for the onion-order theorem: it emits an
enter event, delegates to next, then emits an exit event. -/
def passEntry (i : String) : MwEntry String String :=
  MwEntry.obj (fun _ _ next _ => ("enter:" ++ i) :: next ++ ["exit:" ++ i]) []

/-- A middleware that never invokes next. -/
def stopEntry : MwEntry String String :=
  MwEntry.obj (fun _ _ _ _ => ["stop"]) []

theorem pass_trace (labels : List String)
    (request response terminal : String) :
    compose (labels.map passEntry) request response [terminal] =
      labels.map (fun i => "enter:" ++ i) ++
        terminal :: labels.reverse.map (fun i => "exit:" ++ i) := by
  induction labels with
  | nil => rfl
  | cons i l ih =>
    simp only [List.map_cons, compose, List.foldr_cons] at ih ⊢
    rw [ih]
    simp [passEntry, normalizeEntry, composeObject, List.append_assoc]

theorem stop_trace (front : List String)
    (ms2 : List (MwEntry String String)) (request response : String)
    (next : List String) :
    compose (front.map passEntry ++ stopEntry :: ms2) request response next =
      front.map (fun i => "enter:" ++ i) ++
        "stop" :: front.reverse.map (fun i => "exit:" ++ i) := by
  induction front with
  | nil => rfl
  | cons i l ih =>
    simp only [List.map_cons, List.cons_append, compose, List.foldr_cons]
      at ih ⊢
    rw [ih]
    simp [passEntry, normalizeEntry, composeObject, List.append_assoc]

/-- C2: compose builds the chain in reverse list order, so the head
middleware is outermost and receives the request, the response, the chain
of the remaining entries as its next, and its own parameters appended
after those; running a chain of pass-through middlewares yields the enter
events in list order, then the terminal, then the exit events in reverse
order; and a middleware that never invokes next cuts off every later
middleware and the terminal. -/
theorem compose_onion_order :
    (∀ (ρ ε : Type) (e : MwEntry ρ ε) (ms : List (MwEntry ρ ε))
        (request response : ρ) (next : List ε),
      compose (e :: ms) request response next =
        (normalizeEntry e).method request response
          (compose ms request response next) (normalizeEntry e).parameters)
    ∧ (∀ (labels : List String) (request response terminal : String),
      compose (labels.map passEntry) request response [terminal] =
        labels.map (fun i => "enter:" ++ i) ++
          terminal :: labels.reverse.map (fun i => "exit:" ++ i))
    ∧ (∀ (front : List String) (ms2 : List (MwEntry String String))
        (request response : String) (next : List String),
      compose (front.map passEntry ++ stopEntry :: ms2) request response
          next =
        front.map (fun i => "enter:" ++ i) ++
          "stop" :: front.reverse.map (fun i => "exit:" ++ i)) :=
  ⟨fun _ _ _ _ _ _ _ => rfl, pass_trace, stop_trace⟩

/-- The JS word-character class of the nested-resource regex. -/
def isWordChar (c : Char) : Bool := c.isAlphanum || c == '_'

/-- Maximal run of word characters at the head of the list, together with
the remainder. -/
def wordRun : List Char → List Char × List Char
  | [] => ([], [])
  | c :: cs =>
    if isWordChar c then
      let p := wordRun cs
      (c :: p.1, p.2)
    else ([], c :: cs)

/-- Fueled scan modelling the global regex replace inside
Resource._makePattern: a run of word characters directly followed by a dot
is rewritten to the run, a slash, a colon, the run again, then an id
suffix and a closing slash, and scanning resumes after the dot; any other
character is copied.  Every step consumes at least one input character,
so fuel equal to the input length always suffices. -/
def replaceWordDotAux : Nat → List Char → List Char
  | 0, l => l
  | _ + 1, [] => []
  | fuel + 1, c :: cs =>
    if isWordChar c then
      match wordRun (c :: cs) with
      | (run, '.' :: rest) =>
        run ++ '/' :: ':' :: (run ++ '_' :: 'i' :: 'd' :: '/' ::
          replaceWordDotAux fuel rest)
      | (run, rest) => run ++ replaceWordDotAux fuel rest
    else c :: replaceWordDotAux fuel cs

/-- Entry point of the regex-replace model. -/
def replaceWordDot (l : List Char) : List Char :=
  replaceWordDotAux l.length l

/-- Resource._makePattern: apply the nested-resource replace, then trim a
single trailing slash. -/
def makePattern (pattern : String) : String :=
  let replaced := replaceWordDot pattern.toList
  if replaced.getLast? == some '/' then String.mk replaced.dropLast
  else String.mk replaced

/-- JS String.replace with a one-character pattern and empty replacement:
drop the first occurrence only. -/
def removeFirstChar (c : Char) : List Char → List Char
  | [] => []
  | a :: l => if a == c then l else a :: removeFirstChar c l

/-- Resource._transformKeys: prepend the basename and a dot to every
entry. -/
def transformKeys (basename : String) (pairKeys : List String) :
    List String :=
  pairKeys.map (fun item => basename ++ "." ++ item)

/-- The Resource override of as, which is the method actually reached by
the super.route(...).as(resourceName) call of _registerRoute, because the
receiver of that call is the Resource instance.  Its argument is treated
as a rename mapping, so for a string argument the lodash keys are the
character indices of the string, and a route is renamed (to the single
character at the found index) only when its current name equals the
basename-dot-index transform of one of them. -/
def resourceAs (basename : String) (routes : List RouteRecord)
    (pairs : String) : List RouteRecord :=
  let pairKeys := (List.range pairs.length).map (fun i => toString i)
  let pairTransformedKeys := transformKeys basename pairKeys
  routes.map (fun route =>
    match pairTransformedKeys.findIdx? (fun k => k == route.name) with
    | some i => { route with name := String.mk [pairs.toList.getD i ' '] }
    | none => route)

/-- The Resource instance state: the expanded pattern, the controller
handler, the basename, and the route array (which, in this port, is both
the resource's local list and the registry the routes are pushed to). -/
structure ResourceState where
  pattern : String
  handler : String
  basename : String
  routes : List RouteRecord
deriving DecidableEq

/-- Resource._registerRoute as the port executes it: construct and append
the record (super.route), apply the Resource rename method to the whole
array with the computed resource name (the .as call dispatches to the
Resource override), then append the last record of the array once more
(the explicit push of registeredRoute). -/
def registerResourceRoute (st : ResourceState) (verb : List String)
    (route : String) (handler : String) (name : String) : ResourceState :=
  let resourceName :=
    if st.basename == "/" || st.basename == "" then name
    else st.basename ++ "." ++ name
  let routes1 :=
    st.routes ++ [construct route verb (handler ++ "." ++ name) none]
  let routes2 := resourceAs st.basename routes1 resourceName
  { st with routes := routes2 ++ routes2.getLast?.toList }

/-- Resource._buildRoutes: the seven conventional registrations in
order. -/
def buildRoutes (st : ResourceState) : ResourceState :=
  let s1 := registerResourceRoute st ["GET", "HEAD"] st.pattern
    st.handler "index"
  let s2 := registerResourceRoute s1 ["GET", "HEAD"]
    (s1.pattern ++ "/create") s1.handler "create"
  let s3 := registerResourceRoute s2 ["POST"] s2.pattern s2.handler "store"
  let s4 := registerResourceRoute s3 ["GET", "HEAD"]
    (s3.pattern ++ "/:id") s3.handler "show"
  let s5 := registerResourceRoute s4 ["GET", "HEAD"]
    (s4.pattern ++ "/:id/edit") s4.handler "edit"
  let s6 := registerResourceRoute s5 ["PUT", "PATCH"]
    (s5.pattern ++ "/:id") s5.handler "update"
  registerResourceRoute s6 ["DELETE"] (s6.pattern ++ "/:id")
    s6.handler "destroy"

/-- The Resource constructor for a string handler: expand the pattern,
take the basename as the name with its first slash removed, reset the
route array to empty, and build the seven routes. -/
def makeResource (pattern handler : String) : ResourceState :=
  buildRoutes
    { pattern := makePattern pattern
      handler := handler
      basename := String.mk (removeFirstChar '/' pattern.toList)
      routes := [] }

/-- C3: evaluating the resource generator at basename post and handler
PostController.  The paths, verbs, handler strings and relative order are
the conventional ones, but each record is appended twice, and every
record keeps its path template as name: the computed resource names of
the form post.index are never stored, because the .as call dispatches to
the Resource rename method, which treats the string as a mapping and
renames nothing.  The nested expansion itself is right: post.comment
expands to post/:post_id/comment. -/
theorem resource_build_eval :
    (makeResource "post" "PostController").routes.map
        (fun r => (r.route, r.name, r.verb, r.handler)) =
      [("/post", "/post", ["GET", "HEAD"], "PostController.index"),
       ("/post", "/post", ["GET", "HEAD"], "PostController.index"),
       ("/post/create", "/post/create", ["GET", "HEAD"],
         "PostController.create"),
       ("/post/create", "/post/create", ["GET", "HEAD"],
         "PostController.create"),
       ("/post", "/post", ["POST"], "PostController.store"),
       ("/post", "/post", ["POST"], "PostController.store"),
       ("/post/:id", "/post/:id", ["GET", "HEAD"], "PostController.show"),
       ("/post/:id", "/post/:id", ["GET", "HEAD"], "PostController.show"),
       ("/post/:id/edit", "/post/:id/edit", ["GET", "HEAD"],
         "PostController.edit"),
       ("/post/:id/edit", "/post/:id/edit", ["GET", "HEAD"],
         "PostController.edit"),
       ("/post/:id", "/post/:id", ["PUT", "PATCH"],
         "PostController.update"),
       ("/post/:id", "/post/:id", ["PUT", "PATCH"],
         "PostController.update"),
       ("/post/:id", "/post/:id", ["DELETE"], "PostController.destroy"),
       ("/post/:id", "/post/:id", ["DELETE"], "PostController.destroy")]
    ∧ makePattern "post.comment" = "post/:post_id/comment" := by
  constructor
  · decide
  · decide

/-- C6: the name filter of Resource.only and Resource.except compares
route names against the basename-dot-action transforms, but no generated
route ever carries such a name (names stay path templates, see C3), so
the predicate matches nothing: only removes every route instead of
retaining the selected subset, and except retains every route instead of
the complement. -/
theorem resource_only_names_mismatch :
    transformKeys "post"
        ["index", "create", "store", "show", "edit", "update", "destroy"] =
      ["post.index", "post.create", "post.store", "post.show",
       "post.edit", "post.update", "post.destroy"]
    ∧ (makeResource "post" "PostController").routes.all
        (fun r => !(transformKeys "post"
          ["index", "create", "store", "show", "edit", "update",
           "destroy"]).contains r.name) = true := by
  constructor
  · decide
  · decide

end Adonis
